import Mathlib

/-
Verification development for the node-anemometer repository.

Shallow embedding of the pure core of the program:
numbers held in history records (counter values, unix timestamps in
seconds) are modelled as integers; rates computed by floating division
are modelled as exact rationals; fallible conversions are modelled with
Except. The clock reads performed by the History class are passed in
explicitly as timestamp arguments.
-/

set_option maxHeartbeats 1000000

/-- Model of the DataRecord type from src/utils/History.ts: a counter
value together with a unix timestamp in seconds. -/
structure DataRecord where
  value : ℤ
  timestamp : ℤ
deriving DecidableEq, Repr

/-- Result record of getTotalPulses from src/utils/utilities.ts. -/
structure PulsesResult where
  pulses : ℤ
  timeSpan : ℤ
deriving DecidableEq, Repr

/-- Model of the accumulation loop inside getTotalPulses: walks the
records carrying the running pulse total and the previous value. -/
def totalPulsesLoop : List DataRecord → ℤ → ℤ → ℤ
  | [], pulses, _ => pulses
  | r :: rest, pulses, previousValue =>
      if previousValue ≤ r.value then
        totalPulsesLoop rest (pulses + (r.value - previousValue)) r.value
      else
        totalPulsesLoop rest (pulses + r.value) r.value

/-- Model of getTotalPulses from src/utils/utilities.ts: the loop starts
with previousValue set to the first value, and the time span is the last
timestamp minus the first. -/
def getTotalPulses : List DataRecord → PulsesResult
  | [] => ⟨0, 0⟩
  | d0 :: rest =>
      { pulses := totalPulsesLoop (d0 :: rest) 0 d0.value
        timeSpan := ((d0 :: rest).getLast (List.cons_ne_nil d0 rest)).timestamp - d0.timestamp }

/-- Specification form of the accumulation: the sum over consecutive
pairs, adding the delta on a monotonic pair and the raw next value on a
reset pair. -/
def resetAwarePairSum (data : List DataRecord) : ℤ :=
  (List.zipWith
    (fun prev next => if prev.value ≤ next.value then next.value - prev.value else next.value)
    data data.tail).sum

/-- Helper: the pair sum started from a given previous value. -/
def pairSumFrom (previousValue : ℤ) : List DataRecord → ℤ
  | [] => 0
  | r :: rest =>
      (if previousValue ≤ r.value then r.value - previousValue else r.value) + pairSumFrom r.value rest

/-- Result record of getMaxIncreaseRate from src/utils/utilities.ts. -/
structure RateResult where
  rate : ℚ
  step : ℤ
  timeSpan : ℤ
deriving DecidableEq, Repr

/-- Consecutive pairs of a record list, in scan order: the pair at index
i is (data[i], data[i+1]). -/
def consecutivePairs (data : List DataRecord) : List (DataRecord × DataRecord) :=
  data.zip data.tail

/-- Pulse step of a consecutive pair. -/
def pairStep (p : DataRecord × DataRecord) : ℤ :=
  p.2.value - p.1.value

/-- Time span of a consecutive pair. -/
def pairSpan (p : DataRecord × DataRecord) : ℤ :=
  p.2.timestamp - p.1.timestamp

/-- Rate of a consecutive pair, as an exact rational. -/
def pairRate (p : DataRecord × DataRecord) : ℚ :=
  (pairStep p : ℚ) / (pairSpan p : ℚ)

/-- Loop body of getMaxIncreaseRate: a pair updates the accumulator
only when its time span is strictly positive and its rate strictly
exceeds the tracked maximum. -/
def rateStep (acc : RateResult) (p : DataRecord × DataRecord) : RateResult :=
  if 0 < pairSpan p then
    if acc.rate < pairRate p then ⟨pairRate p, pairStep p, pairSpan p⟩ else acc
  else acc

/-- Model of getMaxIncreaseRate from src/utils/utilities.ts. -/
def getMaxIncreaseRate (data : List DataRecord) : RateResult :=
  if data.length < 2 then ⟨0, 0, 0⟩
  else (consecutivePairs data).foldl rateStep ⟨0, 0, 0⟩

/-- Consecutive pairs whose time delta is strictly positive; only these
can update the tracked maximum. -/
def positivePairs (data : List DataRecord) : List (DataRecord × DataRecord) :=
  (consecutivePairs data).filter (fun p => decide (0 < pairSpan p))

/-- Result built from a single winning pair: the rate together with the
step and time span of that pair. -/
def pairResult (p : DataRecord × DataRecord) : RateResult :=
  ⟨pairRate p, pairStep p, pairSpan p⟩

/-- Model of the WindSpeedUnits enumeration from src/utils/utilities.ts. -/
inductive WindSpeedUnits where
  | kilometersPerHour
  | metersPerSecond
  | knots
deriving DecidableEq, Repr

/-- Model of the WindSpeed class from src/utils/utilities.ts, with the
value as an exact rational. -/
structure WindSpeed where
  value : ℚ
  unit : WindSpeedUnits
deriving DecidableEq, Repr

/-- Model of WindSpeed.toKilometersPerHour. -/
def WindSpeed.toKilometersPerHour (w : WindSpeed) : WindSpeed :=
  match w.unit with
  | .metersPerSecond => ⟨w.value * 3.6, .kilometersPerHour⟩
  | .knots => ⟨w.value * 1.852, .kilometersPerHour⟩
  | _ => w

/-- Model of WindSpeed.toMetersPerSecond. -/
def WindSpeed.toMetersPerSecond (w : WindSpeed) : WindSpeed :=
  match w.unit with
  | .kilometersPerHour => ⟨w.value / 3.6, .metersPerSecond⟩
  | .knots => ⟨w.value / 1.944, .metersPerSecond⟩
  | _ => w

/-- Model of WindSpeed.toKnots. -/
def WindSpeed.toKnots (w : WindSpeed) : WindSpeed :=
  match w.unit with
  | .kilometersPerHour => ⟨w.value / 1.852, .knots⟩
  | .metersPerSecond => ⟨w.value * 1.944, .knots⟩
  | _ => w

/-- Errors thrown by the binary-coded-decimal conversion helpers; the
carried number is the offending input value. -/
inductive ConvError where
  | invalidByteValue (value : ℕ)
  | invalidBCDValue (value : ℕ)
deriving DecidableEq, Repr

/-- Model of bcdToByte from src/utils/utilities.ts: fails when either
nibble of the input is not a decimal digit. -/
def bcdToByte (value : ℕ) : Except ConvError ℕ :=
  if 9 < value >>> 4 ∨ 9 < value &&& 0x0f then
    .error (.invalidByteValue value)
  else
    .ok ((value >>> 4) * 10 + (value &&& 0x0f))

/-- Model of byteToBCD from src/utils/utilities.ts: fails on any value
of at least 100; the shift by 4 applies to the truncated quotient, as
the JavaScript shift coerces its operand to an integer. -/
def byteToBCD (value : ℕ) : Except ConvError ℕ :=
  if 100 ≤ value then
    .error (.invalidBCDValue value)
  else
    .ok (((value / 10) <<< 4) + value % 10)

/-- Equality of conversion outcomes is decidable. -/
instance {ε α : Type} [DecidableEq ε] [DecidableEq α] : DecidableEq (Except ε α) := fun a b =>
  match a, b with
  | .ok x, .ok y =>
      if h : x = y then .isTrue (by rw [h]) else .isFalse (by simp [h])
  | .error x, .error y =>
      if h : x = y then .isTrue (by rw [h]) else .isFalse (by simp [h])
  | .ok _, .error _ => .isFalse (by simp)
  | .error _, .ok _ => .isFalse (by simp)

/-- Model of runSave from src/utils/utilities.ts. The awaited promise
either resolves with a value or rejects with an error; the failure
callback may itself finish or throw. The result is the promise value on
success (left) and the fallback on failure (right); the outer return
type records that the function itself can still only resolve. -/
def runSave {α β ε ε2 : Type} (promise : Except ε α) (returnOnFail : β)
    (onCatch : Option (ε → Except ε2 Unit)) : Except ε (α ⊕ β) :=
  match promise with
  | .ok a => .ok (Sum.inl a)
  | .error e =>
      match onCatch with
      | some cb =>
          match cb e with
          | .ok _ => .ok (Sum.inr returnOnFail)
          | .error _ => .ok (Sum.inr returnOnFail)
      | none => .ok (Sum.inr returnOnFail)

/-- Model of the order field of GetDataConditions: the TypeScript type
admits exactly the four string literals ASC, DESC, asc and desc. -/
inductive SortOrder where
  | upperAsc
  | upperDesc
  | lowerAsc
  | lowerDesc
deriving DecidableEq, Repr

/-- Model of String.toLowerCase restricted to the four admissible order
strings. -/
def SortOrder.toLower : SortOrder → SortOrder
  | upperAsc => lowerAsc
  | lowerAsc => lowerAsc
  | upperDesc => lowerDesc
  | lowerDesc => lowerDesc

/-- Model of the GetDataConditions type from the History module: all
fields are optional. -/
structure GetDataConditions where
  startTime : Option ℤ := none
  endTime : Option ℤ := none
  recentSeconds : Option ℤ := none
  order : Option SortOrder := none
  limit : Option ℤ := none

/-- Model of the TimeCondition type from the History module: the time
filter fields only, with no order and no limit. -/
structure TimeCondition where
  startTime : Option ℤ := none
  endTime : Option ℤ := none
  recentSeconds : Option ℤ := none

/-- Embedding of a TimeCondition into the full conditions record, as
happens when the facade passes a TimeCondition to History.get. -/
def TimeCondition.toConditions (tc : TimeCondition) : GetDataConditions :=
  { startTime := tc.startTime
    endTime := tc.endTime
    recentSeconds := tc.recentSeconds
    order := none
    limit := none }

namespace HistoryTs

/-- Model of History.push from src/utils/History.ts: when the buffer is
full the single oldest record is shifted out, then the new record is
appended with the current clock read. -/
def push (maxElements : ℕ) (data : List DataRecord) (v ts : ℤ) : List DataRecord :=
  (if maxElements ≠ 0 ∧ maxElements ≤ data.length then data.drop 1 else data) ++ [⟨v, ts⟩]

/-- Model of the expiration loop of History.clean from
src/utils/History.ts. The source iterates over the array with a
for-of loop while calling shift inside the body; the iterator keeps its
own index i while shift removes the front element, so the inspected
element is data[i] of the already shifted array. -/
def cleanShiftLoop (validFrom : ℤ) : List DataRecord → ℕ → List DataRecord
  | [], _ => []
  | r :: rest, i =>
      if h : i < (r :: rest).length then
        if validFrom ≤ ((r :: rest).get ⟨i, h⟩).timestamp then r :: rest
        else cleanShiftLoop validFrom rest (i + 1)
      else r :: rest

/-- Model of History.clean from src/utils/History.ts: first a while
loop shifts records out until the length is within maxElements, then
the for-of loop above removes expired records. -/
def clean (expirationTime : ℤ) (maxElements : ℕ) (data : List DataRecord) (now : ℤ) :
    List DataRecord :=
  let d := if maxElements ≠ 0 then data.drop (data.length - maxElements) else data
  cleanShiftLoop (now - expirationTime + 1) d 0

end HistoryTs

namespace HistoryV3

/-- Model of History.push from the GetDataConditions version of the
History module: the oldest record is shifted out when the incremented
length would reach maxElements. -/
def push (maxElements : ℕ) (data : List DataRecord) (v ts : ℤ) : List DataRecord :=
  (if 0 < maxElements ∧ maxElements ≤ data.length + 1 then data.drop 1 else data) ++ [⟨v, ts⟩]

/-- Model of History.get from the GetDataConditions version of the
History module: an absolute start and end time filter when either bound
is present, a relative recentSeconds filter, a sort performed only when
the order string lowercases to asc, and a positive limit truncation. -/
def get (data : List DataRecord) (now : ℤ) (c : GetDataConditions) : List DataRecord :=
  let result := data
  let result :=
    if c.startTime.isSome || c.endTime.isSome then
      result.filter (fun r =>
        (match c.startTime with
          | some s => decide (s ≤ r.timestamp)
          | none => true) &&
        (match c.endTime with
          | some e => decide (r.timestamp ≤ e)
          | none => true))
    else result
  let result :=
    match c.recentSeconds with
    | some rs => result.filter (fun r => decide (now - rs ≤ r.timestamp))
    | none => result
  let result :=
    match c.order with
    | some o =>
        if o.toLower = SortOrder.lowerAsc then
          result.mergeSort (fun a b => decide (a.timestamp ≤ b.timestamp))
        else result
    | none => result
  match c.limit with
  | some l => if 0 < l then result.take l.toNat else result
  | none => result

/-- Model of History.clean from the GetDataConditions version of the
History module: a slice keeps the newest maxElements records, then a
filter drops every expired record. -/
def clean (expirationTime : ℤ) (maxElements : ℕ) (data : List DataRecord) (now : ℤ) :
    List DataRecord :=
  let d := if 0 < maxElements then data.drop (data.length - maxElements) else data
  d.filter (fun r => decide (now - expirationTime + 1 ≤ r.timestamp))

end HistoryV3

/-- Model of Anemometer.getAverageWindSpeed from src/index.ts: reads the
history with the given time condition and hands the accumulated pulses
and time span to the caller-supplied calculation function. -/
def getAverageWindSpeed {α : Type} (histData : List DataRecord) (now : ℤ)
    (tc : TimeCondition) (calcFn : ℤ → ℤ → α) : α :=
  let data := HistoryV3.get histData now tc.toConditions
  let r := getTotalPulses data
  calcFn r.pulses r.timeSpan

/-- A mutation of the history buffer: an append of a value at a clock
read, or a clean at a clock read. -/
inductive HistOp where
  | push (v ts : ℤ)
  | clean (now : ℤ)

/-- Application of one mutation in the src/utils/History.ts model. -/
def applyTsOp (expirationTime : ℤ) (maxElements : ℕ) (data : List DataRecord) :
    HistOp → List DataRecord
  | .push v ts => HistoryTs.push maxElements data v ts
  | .clean now => HistoryTs.clean expirationTime maxElements data now

/-- Application of one mutation in the GetDataConditions History model. -/
def applyV3Op (expirationTime : ℤ) (maxElements : ℕ) (data : List DataRecord) :
    HistOp → List DataRecord
  | .push v ts => HistoryV3.push maxElements data v ts
  | .clean now => HistoryV3.clean expirationTime maxElements data now

/-- Replay of a mutation sequence from the empty buffer in the
src/utils/History.ts model. -/
def runTsOps (expirationTime : ℤ) (maxElements : ℕ) (ops : List HistOp) : List DataRecord :=
  ops.foldl (applyTsOp expirationTime maxElements) []

/-- Replay of a mutation sequence from the empty buffer in the
GetDataConditions History model. -/
def runV3Ops (expirationTime : ℤ) (maxElements : ℕ) (ops : List HistOp) : List DataRecord :=
  ops.foldl (applyV3Op expirationTime maxElements) []

/-
Theorems and supporting lemmas.
-/

lemma totalPulsesLoop_eq (l : List DataRecord) :
    ∀ p prev, totalPulsesLoop l p prev = p + pairSumFrom prev l := by
  induction l with
  | nil => intro p prev; simp [totalPulsesLoop, pairSumFrom]
  | cons r rest ih =>
      intro p prev
      by_cases h : prev ≤ r.value <;> simp [totalPulsesLoop, pairSumFrom, h, ih] <;> ring

lemma pairSumFrom_eq_zipWith (l : List DataRecord) :
    ∀ a : DataRecord, pairSumFrom a.value l =
      (List.zipWith
        (fun prev next => if prev.value ≤ next.value then next.value - prev.value else next.value)
        (a :: l) l).sum := by
  induction l with
  | nil => intro a; simp [pairSumFrom]
  | cons b t ih => intro a; simp [pairSumFrom, List.zipWith, ih b]

/-- C1 counterexample: the sample list [(0,0), (5,1), (3,2), (9,3)] yields
pulses = 14, not the 16 stated by the claim, because the code adds the
post-reset next value on a reset pair rather than the previous value. -/
theorem getTotalPulses_example_is_14 :
    getTotalPulses [⟨0, 0⟩, ⟨5, 1⟩, ⟨3, 2⟩, ⟨9, 3⟩] = ⟨14, 3⟩ ∧ (14 : ℤ) ≠ 16 := by
  decide

/-- C1 (amended): for every non-empty sample list, getTotalPulses adds
next.value - prev.value for each consecutive pair with
next.value >= prev.value and adds next.value (the post-reset count) for
each pair with next.value < prev.value, and the time span is the last
timestamp minus the first. -/
theorem getTotalPulses_pairSum (data : List DataRecord) (h : data ≠ []) :
    getTotalPulses data =
      ⟨resetAwarePairSum data, (data.getLast h).timestamp - (data.head h).timestamp⟩ := by
  match data with
  | d0 :: rest =>
      have hloop : totalPulsesLoop (d0 :: rest) 0 d0.value = pairSumFrom d0.value rest := by
        simp [totalPulsesLoop, totalPulsesLoop_eq]
      have hsum : pairSumFrom d0.value rest = resetAwarePairSum (d0 :: rest) := by
        simpa [resetAwarePairSum] using pairSumFrom_eq_zipWith rest d0
      simp [getTotalPulses, hloop, hsum]

/-- C1 witness: the amended statement evaluated on the sample list of
the claim. -/
theorem getTotalPulses_pairSum_witness :
    getTotalPulses [⟨0, 0⟩, ⟨5, 1⟩, ⟨3, 2⟩, ⟨9, 3⟩] =
      ⟨resetAwarePairSum [⟨0, 0⟩, ⟨5, 1⟩, ⟨3, 2⟩, ⟨9, 3⟩],
        (([⟨0, 0⟩, ⟨5, 1⟩, ⟨3, 2⟩, ⟨9, 3⟩] : List DataRecord).getLast (by decide)).timestamp -
          (([⟨0, 0⟩, ⟨5, 1⟩, ⟨3, 2⟩, ⟨9, 3⟩] : List DataRecord).head (by decide)).timestamp⟩ :=
  getTotalPulses_pairSum [⟨0, 0⟩, ⟨5, 1⟩, ⟨3, 2⟩, ⟨9, 3⟩] (by decide)

/-- C2: History.get sorts only when the order string lowercases to asc;
an order of DESC or desc leaves the ascending insertion order unchanged
instead of reversing it, contrary to the documentation of the order
field. -/
theorem historyGet_desc_not_descending :
    HistoryV3.get [⟨10, 1⟩, ⟨20, 2⟩] 100 { order := some SortOrder.upperDesc } =
      [⟨10, 1⟩, ⟨20, 2⟩] ∧
    HistoryV3.get [⟨10, 1⟩, ⟨20, 2⟩] 100 { order := some SortOrder.lowerDesc } =
      [⟨10, 1⟩, ⟨20, 2⟩] ∧
    ([⟨10, 1⟩, ⟨20, 2⟩] : List DataRecord) ≠ [⟨20, 2⟩, ⟨10, 1⟩] := by
  decide

/-- C5: clean in src/utils/History.ts shifts the array while iterating
over it with a for-of loop, so the iterator skips records; on a buffer
of two expired records it retains the second one even though its
timestamp is below now - expirationTime + 1. -/
theorem cleanTs_retains_expired :
    HistoryTs.clean 600 700 [⟨0, 0⟩, ⟨0, 1⟩] 1000 = [⟨0, 1⟩] ∧ (1 : ℤ) < 1000 - 600 + 1 := by
  decide

lemma historyV3_get_nil (now : ℤ) (c : GetDataConditions) :
    HistoryV3.get [] now c = [] := by
  unfold HistoryV3.get
  cases hs : c.startTime.isSome || c.endTime.isSome <;>
  cases hr : c.recentSeconds <;>
  cases ho : c.order <;>
  cases hl : c.limit <;>
  simp [hs, hr, ho, hl]

/-- C7: the accumulate function returns (0, 0) both on the empty list
and on a single-sample list, and getAverageWindSpeed over an empty
history window applies the caller-supplied calculation function to the
arguments (0, 0). -/
theorem emptyWindow_yields_zero :
    getTotalPulses [] = ⟨0, 0⟩ ∧
    (∀ r : DataRecord, getTotalPulses [r] = ⟨0, 0⟩) ∧
    (∀ (α : Type) (now : ℤ) (tc : TimeCondition) (calcFn : ℤ → ℤ → α),
      getAverageWindSpeed [] now tc calcFn = calcFn 0 0) := by
  refine ⟨rfl, ?_, ?_⟩
  · intro r
    simp [getTotalPulses, totalPulsesLoop]
  · intro α now tc calcFn
    simp [getAverageWindSpeed, historyV3_get_nil, getTotalPulses]

/-- C8: runSave resolves with the fallback value on every rejected
promise and every failure callback, even one that itself throws, and it
never rejects for any input. -/
theorem runSave_resolves_fallback :
    (∀ (α β ε ε2 : Type) (e : ε) (u : β) (cb : ε → Except ε2 Unit),
      @runSave α β ε ε2 (Except.error e) u (some cb) = .ok (Sum.inr u)) ∧
    (∀ (α β ε ε2 : Type) (p : Except ε α) (u : β) (oc : Option (ε → Except ε2 Unit)),
      ∃ r, @runSave α β ε ε2 p u oc = .ok r) := by
  constructor
  · intro α β ε ε2 e u cb
    cases h : cb e <;> simp [runSave, h]
  · intro α β ε ε2 p u oc
    cases p with
    | ok a => exact ⟨Sum.inl a, rfl⟩
    | error e =>
        cases oc with
        | none => exact ⟨Sum.inr u, rfl⟩
        | some cb => cases h : cb e <;> exact ⟨Sum.inr u, by simp [runSave, h]⟩

/-- C9: decoding the encoding of any x between 0 and 99 returns x,
encoding any value of at least 100 fails, and decoding a byte with a
non-decimal nibble fails. -/
theorem bcd_roundtrip :
    (∀ x : ℕ, x ≤ 99 → (byteToBCD x).bind bcdToByte = .ok x) ∧
    (∀ x : ℕ, 100 ≤ x → byteToBCD x = .error (.invalidBCDValue x)) ∧
    (∀ v : ℕ, v < 256 → (9 < v >>> 4 ∨ 9 < v &&& 0x0f) →
      bcdToByte v = .error (.invalidByteValue v)) := by
  refine ⟨?_, ?_, ?_⟩
  · intro x hx
    have h100 : x < 100 := by omega
    exact (by decide : ∀ y : Fin 100, (byteToBCD y.val).bind bcdToByte = .ok y.val) ⟨x, h100⟩
  · intro x hx
    simp [byteToBCD, hx]
  · intro v _ h
    simp [bcdToByte, h]

/-- C9 witness: the round trip at 42, the encode failure at 100, and the
decode failure at the byte 0xAB. -/
theorem bcd_roundtrip_witness :
    ((42 : ℕ) ≤ 99 ∧ (byteToBCD 42).bind bcdToByte = .ok 42) ∧
    ((100 : ℕ) ≤ 100 ∧ byteToBCD 100 = .error (.invalidBCDValue 100)) ∧
    ((171 : ℕ) < 256 ∧ (9 < (171 : ℕ) >>> 4 ∨ 9 < (171 : ℕ) &&& 0x0f) ∧
      bcdToByte 171 = .error (.invalidByteValue 171)) :=
  ⟨⟨by decide, bcd_roundtrip.1 42 (by decide)⟩,
   ⟨by decide, bcd_roundtrip.2.1 100 (by decide)⟩,
   ⟨by decide, by decide, bcd_roundtrip.2.2 171 (by decide) (by decide)⟩⟩

/-- C3 counterexample: converting 1 m/s to knots directly multiplies by
the rounded constant 1.944, while converting through km/h divides 3.6
by 1.852; the two paths give different values, so the conversions are
not mutually consistent. -/
theorem windSpeed_paths_differ :
    (WindSpeed.mk 1 .metersPerSecond).toKnots.value ≠
      ((WindSpeed.mk 1 .metersPerSecond).toKilometersPerHour).toKnots.value := by
  simp [WindSpeed.toKnots, WindSpeed.toKilometersPerHour]
  norm_num

/-- C3 (amended): conversions between km/h and m/s use the constant 3.6,
conversions between km/h and knots use 1.852, and conversions between
m/s and knots use the separate rounded constant 1.944, which differs
from 3.6 / 1.852; round trips along each pair of units return the
original value exactly in the rational model. -/
theorem windSpeed_conversion_constants (v : ℚ) :
    (WindSpeed.mk v .metersPerSecond).toKilometersPerHour = ⟨v * 3.6, .kilometersPerHour⟩ ∧
    (WindSpeed.mk v .knots).toKilometersPerHour = ⟨v * 1.852, .kilometersPerHour⟩ ∧
    (WindSpeed.mk v .kilometersPerHour).toMetersPerSecond = ⟨v / 3.6, .metersPerSecond⟩ ∧
    (WindSpeed.mk v .knots).toMetersPerSecond = ⟨v / 1.944, .metersPerSecond⟩ ∧
    (WindSpeed.mk v .kilometersPerHour).toKnots = ⟨v / 1.852, .knots⟩ ∧
    (WindSpeed.mk v .metersPerSecond).toKnots = ⟨v * 1.944, .knots⟩ ∧
    ((WindSpeed.mk v .kilometersPerHour).toMetersPerSecond).toKilometersPerHour =
      ⟨v, .kilometersPerHour⟩ ∧
    ((WindSpeed.mk v .metersPerSecond).toKilometersPerHour).toMetersPerSecond =
      ⟨v, .metersPerSecond⟩ ∧
    ((WindSpeed.mk v .kilometersPerHour).toKnots).toKilometersPerHour =
      ⟨v, .kilometersPerHour⟩ ∧
    ((WindSpeed.mk v .knots).toKilometersPerHour).toKnots = ⟨v, .knots⟩ ∧
    ((WindSpeed.mk v .metersPerSecond).toKnots).toMetersPerSecond = ⟨v, .metersPerSecond⟩ ∧
    ((WindSpeed.mk v .knots).toMetersPerSecond).toKnots = ⟨v, .knots⟩ ∧
    (1.944 : ℚ) ≠ 3.6 / 1.852 := by
  refine ⟨rfl, rfl, rfl, rfl, rfl, rfl, ?_, ?_, ?_, ?_, ?_, ?_, by norm_num⟩ <;>
  · simp only [WindSpeed.toKilometersPerHour, WindSpeed.toMetersPerSecond, WindSpeed.toKnots,
      WindSpeed.mk.injEq]
    exact ⟨by field_simp, trivial⟩

lemma pushTs_length_le (N : ℕ) (hN : 0 < N) (data : List DataRecord) (v ts : ℤ)
    (h : data.length ≤ N) : (HistoryTs.push N data v ts).length ≤ N := by
  unfold HistoryTs.push
  split <;> simp <;> omega

lemma pushV3_length_le (N : ℕ) (hN : 0 < N) (data : List DataRecord) (v ts : ℤ)
    (h : data.length ≤ N) : (HistoryV3.push N data v ts).length ≤ N := by
  unfold HistoryV3.push
  split <;> simp <;> omega

lemma cleanShiftLoop_length_le (vf : ℤ) (l : List DataRecord) :
    ∀ i, (HistoryTs.cleanShiftLoop vf l i).length ≤ l.length := by
  induction l with
  | nil => intro i; simp [HistoryTs.cleanShiftLoop]
  | cons r rest ih =>
      intro i
      unfold HistoryTs.cleanShiftLoop
      split
      · split
        · simp
        · have := ih (i + 1)
          simp only [List.length_cons]
          omega
      · simp

lemma cleanTs_length_le (E : ℤ) (N : ℕ) (data : List DataRecord) (now : ℤ) :
    (HistoryTs.clean E N data now).length ≤ data.length := by
  unfold HistoryTs.clean
  split
  · exact le_trans (cleanShiftLoop_length_le _ _ 0) (by simp)
  · exact cleanShiftLoop_length_le _ _ 0

lemma cleanV3_length_le (E : ℤ) (N : ℕ) (data : List DataRecord) (now : ℤ) :
    (HistoryV3.clean E N data now).length ≤ data.length := by
  unfold HistoryV3.clean
  split
  · exact le_trans (List.length_filter_le _ _) (by simp)
  · exact List.length_filter_le _ _

/-- C4: for every positive maxElements bound N, replaying any sequence
of push and clean operations from the empty buffer keeps the stored
record count at most N, in both History implementations. -/
theorem history_size_bounded (E : ℤ) (N : ℕ) (hN : 0 < N) (ops : List HistOp) :
    (runTsOps E N ops).length ≤ N ∧ (runV3Ops E N ops).length ≤ N := by
  have key : ∀ (l : List HistOp) (d1 d2 : List DataRecord),
      d1.length ≤ N → d2.length ≤ N →
      (l.foldl (applyTsOp E N) d1).length ≤ N ∧ (l.foldl (applyV3Op E N) d2).length ≤ N := by
    intro l
    induction l with
    | nil => intro d1 d2 h1 h2; simpa using ⟨h1, h2⟩
    | cons op t ih =>
        intro d1 d2 h1 h2
        simp only [List.foldl_cons]
        apply ih
        · cases op with
          | push v ts => exact pushTs_length_le N hN d1 v ts h1
          | clean now => exact le_trans (cleanTs_length_le E N d1 now) h1
        · cases op with
          | push v ts => exact pushV3_length_le N hN d2 v ts h2
          | clean now => exact le_trans (cleanV3_length_le E N d2 now) h2
  simpa [runTsOps, runV3Ops] using key ops [] [] (by simp) (by simp)

/-- C4 witness: a concrete replay of two pushes and a clean with the
default bound 700. -/
theorem history_size_bounded_witness :
    (runTsOps 600 700 [HistOp.push 1 10, HistOp.push 2 11, HistOp.clean 20]).length ≤ 700 ∧
    (runV3Ops 600 700 [HistOp.push 1 10, HistOp.push 2 11, HistOp.clean 20]).length ≤ 700 :=
  history_size_bounded 600 700 (by decide) [HistOp.push 1 10, HistOp.push 2 11, HistOp.clean 20]

lemma rateStep_nonneg (acc : RateResult) (p : DataRecord × DataRecord)
    (h : 0 ≤ acc.rate ∧ 0 ≤ acc.step ∧ 0 ≤ acc.timeSpan) :
    0 ≤ (rateStep acc p).rate ∧ 0 ≤ (rateStep acc p).step ∧ 0 ≤ (rateStep acc p).timeSpan := by
  unfold rateStep
  split
  · rename_i hspan
    split
    · rename_i hgt
      have hrate : 0 < pairRate p := lt_of_le_of_lt h.1 hgt
      have hspanQ : (0 : ℚ) < (pairSpan p : ℚ) := by exact_mod_cast hspan
      have hstepQ : (0 : ℚ) < (pairStep p : ℚ) := by
        rcases div_pos_iff.mp (by simpa [pairRate] using hrate) with ⟨ha, _⟩ | ⟨_, hb⟩
        · exact ha
        · exact absurd hspanQ (not_lt.mpr (le_of_lt hb))
      exact ⟨le_of_lt hrate, by exact_mod_cast le_of_lt hstepQ, le_of_lt hspan⟩
    · exact h
  · exact h

lemma foldl_rateStep_nonneg (l : List (DataRecord × DataRecord)) :
    ∀ acc : RateResult, 0 ≤ acc.rate ∧ 0 ≤ acc.step ∧ 0 ≤ acc.timeSpan →
      0 ≤ (l.foldl rateStep acc).rate ∧ 0 ≤ (l.foldl rateStep acc).step ∧
        0 ≤ (l.foldl rateStep acc).timeSpan := by
  induction l with
  | nil => intro acc h; simpa using h
  | cons p t ih =>
      intro acc h
      simpa using ih (rateStep acc p) (rateStep_nonneg acc p h)

/-- C10: getMaxIncreaseRate never returns a negative step or time span:
the tracked maximum rate starts at zero and is only replaced by a
strictly greater rate over a positive time span, so a reset pair with a
negative step can never be selected. -/
theorem getMaxIncreaseRate_nonneg (data : List DataRecord) :
    0 ≤ (getMaxIncreaseRate data).step ∧ 0 ≤ (getMaxIncreaseRate data).timeSpan := by
  unfold getMaxIncreaseRate
  split
  · simp
  · have := foldl_rateStep_nonneg (consecutivePairs data) ⟨0, 0, 0⟩ (by simp)
    exact ⟨this.2.1, this.2.2⟩

lemma foldl_rateStep_filter (l : List (DataRecord × DataRecord)) :
    ∀ acc : RateResult,
      l.foldl rateStep acc = (l.filter (fun p => decide (0 < pairSpan p))).foldl rateStep acc := by
  induction l with
  | nil => intro acc; rfl
  | cons p t ih =>
      intro acc
      by_cases h : 0 < pairSpan p
      · simp [List.filter_cons, h, ih]
      · have hstep : rateStep acc p = acc := by simp [rateStep, h]
        simp [List.filter_cons, h, ih, hstep]

lemma foldl_rateStep_char (l : List (DataRecord × DataRecord)) (hpos : ∀ p ∈ l, 0 < pairSpan p) :
    ∀ acc : RateResult,
      (l.foldl rateStep acc = acc ∧ ∀ p ∈ l, pairRate p ≤ acc.rate) ∨
      (∃ i, ∃ hi : i < l.length,
        l.foldl rateStep acc = pairResult (l.get ⟨i, hi⟩) ∧
        acc.rate < pairRate (l.get ⟨i, hi⟩) ∧
        ∀ j, ∀ hj : j < l.length,
          (j < i → pairRate (l.get ⟨j, hj⟩) < pairRate (l.get ⟨i, hi⟩)) ∧
          pairRate (l.get ⟨j, hj⟩) ≤ pairRate (l.get ⟨i, hi⟩)) := by
  induction l with
  | nil => intro acc; left; simp
  | cons p t ih =>
      intro acc
      have hp : 0 < pairSpan p := hpos p (List.mem_cons_self p t)
      have hpos' : ∀ q ∈ t, 0 < pairSpan q := fun q hq => hpos q (List.mem_cons_of_mem p hq)
      by_cases hgt : acc.rate < pairRate p
      · have hstep : rateStep acc p = pairResult p := by
          simp [rateStep, hp, hgt, pairResult]
        have hfold : (p :: t).foldl rateStep acc = t.foldl rateStep (pairResult p) := by
          simp [List.foldl_cons, hstep]
        rcases ih hpos' (pairResult p) with ⟨heq, hall⟩ | ⟨i, hi, heq, hlt, hmax⟩
        · right
          refine ⟨0, by simp, ?_, ?_, ?_⟩
          · simp [hfold, heq]
          · simpa using hgt
          · intro j hj
            cases j with
            | zero => exact ⟨fun hc => absurd hc (by omega), by simp⟩
            | succ k =>
                have hk : k < t.length := by simpa using hj
                refine ⟨fun hc => absurd hc (by omega), ?_⟩
                have := hall (t.get ⟨k, hk⟩) (t.get_mem k hk)
                simpa [pairResult] using this
        · right
          refine ⟨i + 1, by simpa using Nat.succ_lt_succ hi, ?_, ?_, ?_⟩
          · rw [hfold, heq]; simp
          · exact lt_trans hgt (by simpa [pairResult] using hlt)
          · intro j hj
            cases j with
            | zero =>
                refine ⟨fun _ => ?_, ?_⟩
                · simpa [pairResult] using hlt
                · exact le_of_lt (by simpa [pairResult] using hlt)
            | succ k =>
                have hk : k < t.length := by simpa using hj
                have h2 := hmax k hk
                refine ⟨fun hc => ?_, ?_⟩
                · have := h2.1 (by omega)
                  simpa using this
                · simpa using h2.2
      · have hstep : rateStep acc p = acc := by
          simp [rateStep, hp, hgt]
        have hfold : (p :: t).foldl rateStep acc = t.foldl rateStep acc := by
          simp [List.foldl_cons, hstep]
        have hple : pairRate p ≤ acc.rate := not_lt.mp hgt
        rcases ih hpos' acc with ⟨heq, hall⟩ | ⟨i, hi, heq, hlt, hmax⟩
        · left
          refine ⟨by rw [hfold, heq], ?_⟩
          intro q hq
          rcases List.mem_cons.mp hq with rfl | hq'
          · exact hple
          · exact hall q hq'
        · right
          refine ⟨i + 1, by simpa using Nat.succ_lt_succ hi, ?_, ?_, ?_⟩
          · rw [hfold, heq]; simp
          · simpa using hlt
          · intro j hj
            cases j with
            | zero =>
                refine ⟨fun _ => ?_, ?_⟩
                · exact lt_of_le_of_lt hple (by simpa using hlt)
                · exact le_of_lt (lt_of_le_of_lt hple (by simpa using hlt))
            | succ k =>
                have hk : k < t.length := by simpa using hj
                have h2 := hmax k hk
                refine ⟨fun hc => ?_, ?_⟩
                · have := h2.1 (by omega)
                  simpa using this
                · simpa using h2.2

/-- C6 counterexample: on [(5,0), (5,2)] the only consecutive pair has a
strictly positive time delta and thus the maximal rate 0 with time span
2, yet getMaxIncreaseRate returns time span 0 instead of the span of
that pair, because a rate must strictly exceed the initial tracked
maximum 0 to be selected. -/
theorem getMaxIncreaseRate_zero_rate_unselected :
    positivePairs [⟨5, 0⟩, ⟨5, 2⟩] = [(⟨5, 0⟩, ⟨5, 2⟩)] ∧
    pairRate (⟨5, 0⟩, ⟨5, 2⟩) = 0 ∧
    pairSpan (⟨5, 0⟩, ⟨5, 2⟩) = 2 ∧
    getMaxIncreaseRate [⟨5, 0⟩, ⟨5, 2⟩] = ⟨0, 0, 0⟩ ∧
    (getMaxIncreaseRate [⟨5, 0⟩, ⟨5, 2⟩]).timeSpan ≠ pairSpan (⟨5, 0⟩, ⟨5, 2⟩) := by
  have hrate : pairRate (⟨5, 0⟩, ⟨5, 2⟩) = 0 := by
    simp [pairRate, pairStep]
  have heval : getMaxIncreaseRate [⟨5, 0⟩, ⟨5, 2⟩] = ⟨0, 0, 0⟩ := by
    simp [getMaxIncreaseRate, consecutivePairs, rateStep, hrate, pairSpan]
  refine ⟨by decide, hrate, by decide, heval, ?_⟩
  rw [heval]
  decide

/-- C6 (amended): getMaxIncreaseRate returns (0, 0, 0) on fewer than two
samples; otherwise, over the consecutive pairs with strictly positive
time delta, either every rate is at most 0 and the result stays
(0, 0, 0), or the result carries the rate, step and time span of the
first pair in scan order attaining the strictly positive maximum rate. -/
theorem getMaxIncreaseRate_first_max (data : List DataRecord) :
    (data.length < 2 → getMaxIncreaseRate data = ⟨0, 0, 0⟩) ∧
    (2 ≤ data.length →
      ((getMaxIncreaseRate data = ⟨0, 0, 0⟩ ∧ ∀ p ∈ positivePairs data, pairRate p ≤ 0) ∨
       (∃ i, ∃ hi : i < (positivePairs data).length,
         getMaxIncreaseRate data = pairResult ((positivePairs data).get ⟨i, hi⟩) ∧
         0 < pairRate ((positivePairs data).get ⟨i, hi⟩) ∧
         ∀ j, ∀ hj : j < (positivePairs data).length,
           (j < i → pairRate ((positivePairs data).get ⟨j, hj⟩) <
             pairRate ((positivePairs data).get ⟨i, hi⟩)) ∧
           pairRate ((positivePairs data).get ⟨j, hj⟩) ≤
             pairRate ((positivePairs data).get ⟨i, hi⟩)))) := by
  constructor
  · intro h
    simp [getMaxIncreaseRate, h]
  · intro h
    have hne : ¬ data.length < 2 := by omega
    have hfold : getMaxIncreaseRate data = (positivePairs data).foldl rateStep ⟨0, 0, 0⟩ := by
      rw [getMaxIncreaseRate, if_neg hne, positivePairs, foldl_rateStep_filter]
    have hpos : ∀ p ∈ positivePairs data, 0 < pairSpan p := by
      intro p hp
      simpa using (List.mem_filter.mp hp).2
    rcases foldl_rateStep_char (positivePairs data) hpos ⟨0, 0, 0⟩ with ⟨heq, hall⟩ | hsel
    · left
      exact ⟨by rw [hfold, heq], by simpa using hall⟩
    · right
      obtain ⟨i, hi, heq, hlt, hmax⟩ := hsel
      exact ⟨i, hi, by rw [hfold, heq], by simpa using hlt, hmax⟩

/-- C6 witness: the amended statement applied to the empty list and to
the sample list [(0,0), (2,1), (7,2)] whose pair rates are 2 then 5. -/
theorem getMaxIncreaseRate_first_max_witness :
    (([] : List DataRecord).length < 2 ∧ getMaxIncreaseRate [] = ⟨0, 0, 0⟩) ∧
    (2 ≤ ([⟨0, 0⟩, ⟨2, 1⟩, ⟨7, 2⟩] : List DataRecord).length ∧
      ((getMaxIncreaseRate [⟨0, 0⟩, ⟨2, 1⟩, ⟨7, 2⟩] = ⟨0, 0, 0⟩ ∧
          ∀ p ∈ positivePairs [⟨0, 0⟩, ⟨2, 1⟩, ⟨7, 2⟩], pairRate p ≤ 0) ∨
       (∃ i, ∃ hi : i < (positivePairs [⟨0, 0⟩, ⟨2, 1⟩, ⟨7, 2⟩]).length,
         getMaxIncreaseRate [⟨0, 0⟩, ⟨2, 1⟩, ⟨7, 2⟩] =
           pairResult ((positivePairs [⟨0, 0⟩, ⟨2, 1⟩, ⟨7, 2⟩]).get ⟨i, hi⟩) ∧
         0 < pairRate ((positivePairs [⟨0, 0⟩, ⟨2, 1⟩, ⟨7, 2⟩]).get ⟨i, hi⟩) ∧
         ∀ j, ∀ hj : j < (positivePairs [⟨0, 0⟩, ⟨2, 1⟩, ⟨7, 2⟩]).length,
           (j < i → pairRate ((positivePairs [⟨0, 0⟩, ⟨2, 1⟩, ⟨7, 2⟩]).get ⟨j, hj⟩) <
             pairRate ((positivePairs [⟨0, 0⟩, ⟨2, 1⟩, ⟨7, 2⟩]).get ⟨i, hi⟩)) ∧
           pairRate ((positivePairs [⟨0, 0⟩, ⟨2, 1⟩, ⟨7, 2⟩]).get ⟨j, hj⟩) ≤
             pairRate ((positivePairs [⟨0, 0⟩, ⟨2, 1⟩, ⟨7, 2⟩]).get ⟨i, hi⟩)))) :=
  ⟨⟨by decide, (getMaxIncreaseRate_first_max []).1 (by decide)⟩,
   ⟨by decide, (getMaxIncreaseRate_first_max [⟨0, 0⟩, ⟨2, 1⟩, ⟨7, 2⟩]).2 (by decide)⟩⟩
